import Mathlib

/-!
Verification of the DuoNova resume-processing core against its code.

This file shallowly embeds the decision-and-execution pipeline of the
repository (rule evaluation and strategy selection from
app/config/processing_config.py and app/services/processing_selection.py,
the multi-provider extraction orchestrator and validator from
app/services/resume_processing.py, and the text normalizer from
app/services/file_extraction.py) and proves or refutes the frozen claims
about it.

Modelling conventions: Python floats are modelled as exact rationals
(all sizes and thresholds in play are exactly representable); Python
dicts with a fixed key set become structures; truthiness of a value is
modelled explicitly where the code relies on it; network calls to the
LLM backends are modelled as an environment record giving the outcome of
each call; Python exceptions become Except; functions whose natural
recursion is not structural take an explicit fuel argument equal to the
input length so that they compute by kernel reduction.
-/

set_option linter.unusedVariables false

/-! ## Small generic helpers -/

deriving instance DecidableEq for Except

/-- Association-list lookup, modelling Python dict lookup (first binding wins). -/
def alookup {α β : Type} [DecidableEq α] (k : α) : List (α × β) → Option β
  | [] => none
  | kv :: rest => if kv.1 = k then some kv.2 else alookup k rest

/-- Python substring test: startsWith pat txt checks pat is a prefix of txt. -/
def startsWithChars : List Char → List Char → Bool
  | [], _ => true
  | _ :: _, [] => false
  | a :: as2, b :: bs => a = b && startsWithChars as2 bs

/-- Python substring containment (the in operator on strings), over char lists. -/
def containsSub (pat : List Char) : List Char → Bool
  | [] => startsWithChars pat []
  | c :: rest => startsWithChars pat (c :: rest) || containsSub pat rest

/-- Python whitespace (the re \s class and str.strip), ASCII fragment:
space, tab, newline, carriage return, vertical tab, form feed. -/
def isPySpace (c : Char) : Bool :=
  c = ' ' || c = '\t' || c = '\n' || c = '\r' || c.toNat = 11 || c.toNat = 12

/-- Truthiness of an optional Python string: None and the empty string are falsy. -/
def pyTruthyStr : Option String → Bool
  | none => false
  | some s => !(s = "")

/-- str.lower, ASCII fragment (characterwise lowercasing). -/
def pyLower (s : String) : String := ⟨s.data.map Char.toLower⟩

/-! ## app/config/processing_config.py -/

/-- ProcessingMode enum. -/
inductive ProcessingMode where
  | hybrid
  | complete_llm

deriving DecidableEq

/-- String value of a ProcessingMode (the str enum value). -/
def modeValue : ProcessingMode → String
  | .hybrid => "hybrid"
  | .complete_llm => "complete_llm"

/-- LLMProvider enum. -/
inductive LLMProvider where
  | auto
  | openai
  | groq
  | anthropic

deriving DecidableEq

/-- String value of an LLMProvider (the str enum value). -/
def providerValue : LLMProvider → String
  | .auto => "auto"
  | .openai => "openai"
  | .groq => "groq"
  | .anthropic => "anthropic"

/-- LLMProvider(key) construction; ValueError becomes none. -/
def providerFromString (s : String) : Option LLMProvider :=
  if s = "auto" then some .auto
  else if s = "openai" then some .openai
  else if s = "groq" then some .groq
  else if s = "anthropic" then some .anthropic
  else none

/-- One size condition string of a rule conditions dict: a string starting
with a strict comparison operator and a threshold in megabytes; any other
string imposes no constraint (the code only handles the two prefixes). -/
inductive SizeCond where
  | gt (t : ℚ)
  | lt (t : ℚ)
  | noSizeOp

deriving DecidableEq

/-- The conditions dict of a ProcessingRule. The code only ever inspects the
file_extension and file_size_mb keys; any other key (such as complexity) is
ignored by the matcher. -/
structure RuleConditions where
  file_extension : Option (List String) := none
  file_size_mb : Option SizeCond := none
  complexity : Option String := none

deriving DecidableEq

/-- ProcessingRule dataclass. -/
structure ProcessingRule where
  mode : ProcessingMode
  preferred_providers : List LLMProvider
  description : String
  conditions : RuleConditions

deriving DecidableEq

/-- Whether a single size condition holds of a size in megabytes, as coded in
ProcessingConfig._matches_conditions: a gt threshold fails when size <= t,
a lt threshold fails when size >= t. -/
def sizeCondHolds : SizeCond → ℚ → Bool
  | .gt t, sizeMb => !(decide (sizeMb ≤ t))
  | .lt t, sizeMb => !(decide (t ≤ sizeMb))
  | .noSizeOp, _ => true

/-- ProcessingConfig._matches_conditions: extension membership, then the size
condition; keys absent from the conditions dict impose no constraint. -/
def matchesConditions (conds : RuleConditions) (fileExtension : String) (fileSizeMb : ℚ) : Bool :=
  (match conds.file_extension with
   | some exts => exts.contains fileExtension
   | none => true) &&
  (match conds.file_size_mb with
   | some sc => sizeCondHolds sc fileSizeMb
   | none => true)

/-- Last index of a character in a char list, modelling str.rfind. -/
def lastIdx (c : Char) : List Char → Option ℕ
  | [] => none
  | x :: xs =>
    match lastIdx c xs with
    | some i => some (i + 1)
    | none => if x = c then some 0 else none

/-- Extension part of os.path.splitext (posix): the suffix from the last dot,
provided that dot lies after the last path separator and some non-dot
character of the base name precedes it. -/
def splitextExt (p : String) : String :=
  let cs := p.data
  let sepIdx : ℤ := ((lastIdx '/' cs).map (Int.ofNat)).getD (-1)
  match lastIdx '.' cs with
  | none => ""
  | some dotIdx =>
    if sepIdx < (dotIdx : ℤ) &&
       ((List.range dotIdx).any (fun k => sepIdx < (k : ℤ) && !(cs.getD k '.' = '.'))) then
      ⟨cs.drop dotIdx⟩
    else ""

/-- The five declared processing rules, in dict insertion order. -/
def largeFilesRule : ProcessingRule :=
  { mode := .complete_llm
    preferred_providers := [.openai, .anthropic]
    description := "Large files (>5MB) benefit from direct LLM processing"
    conditions := { file_size_mb := some (.gt 5) } }

/-- Rule pdf_files. -/
def pdfFilesRule : ProcessingRule :=
  { mode := .complete_llm
    preferred_providers := [.openai, .anthropic]
    description := "PDF files often need OCR capabilities of advanced LLMs"
    conditions := { file_extension := some [".pdf"] } }

/-- Rule docx_files. -/
def docxFilesRule : ProcessingRule :=
  { mode := .hybrid
    preferred_providers := [.groq, .openai]
    description := "DOCX files extract well with libraries, hybrid is efficient"
    conditions := { file_extension := some [".docx"] } }

/-- Rule small_text_files. -/
def smallTextFilesRule : ProcessingRule :=
  { mode := .hybrid
    preferred_providers := [.groq]
    description := "Small text files are perfect for fast hybrid processing"
    conditions := { file_extension := some [".txt"], file_size_mb := some (.lt 1) } }

/-- Rule complex_resumes. Note its only condition key (complexity) is one the
matcher never inspects, so this rule matches every file. -/
def complexResumesRule : ProcessingRule :=
  { mode := .complete_llm
    preferred_providers := [.openai, .anthropic]
    description := "Complex layouts need advanced LLM understanding"
    conditions := { complexity := some "high" } }

/-- PROCESSING_RULES, an ordered collection (Python dict insertion order). -/
def processingRules : List (String × ProcessingRule) :=
  [("large_files", largeFilesRule),
   ("pdf_files", pdfFilesRule),
   ("docx_files", docxFilesRule),
   ("small_text_files", smallTextFilesRule),
   ("complex_resumes", complexResumesRule)]

/-- The predicate a rule is tested against in evaluate_file_rules: conditions
checked against the lowercased dot-prefixed extension and the size in MB. -/
def ruleMatches (fileName : String) (fileSizeBytes : ℕ) (r : ProcessingRule) : Bool :=
  matchesConditions r.conditions (splitextExt (pyLower fileName))
    (mkRat (Int.ofNat fileSizeBytes) (1024 * 1024))

/-- ProcessingConfig.evaluate_file_rules: ordered scan over PROCESSING_RULES
returning the first matching rule, none otherwise. -/
def evaluateFileRules (fileName : String) (fileSizeBytes : ℕ) : Option ProcessingRule :=
  (processingRules.find? (fun rk => ruleMatches fileName fileSizeBytes rk.2)).map
    (fun rk => rk.2)

/-- A placeholder pair used only as the default of List.getD in statements. -/
def dummyRulePair : String × ProcessingRule := ("", largeFilesRule)

/-! ## app/services/processing_selection.py and provider configuration -/

/-- One entry of PROVIDER_CONFIGS. -/
structure ProviderConfig where
  name : String
  strengths : List String
  limitations : List String
  best_for : List String
  cost_tier : String

deriving DecidableEq

/-- PROVIDER_CONFIGS, in dict insertion order (groq, openai, anthropic). -/
def providerConfigs : List (LLMProvider × ProviderConfig) :=
  [(.groq,
    { name := "Groq"
      strengths := ["speed", "cost_effective", "text_processing"]
      limitations := ["no_file_upload", "rate_limits"]
      best_for := ["hybrid_mode", "text_extraction", "quick_processing"]
      cost_tier := "free" }),
   (.openai,
    { name := "OpenAI GPT-4"
      strengths := ["file_upload", "comprehensive_analysis", "accuracy"]
      limitations := ["cost", "rate_limits"]
      best_for := ["complete_llm", "pdf_processing", "complex_analysis"]
      cost_tier := "premium" }),
   (.anthropic,
    { name := "Claude"
      strengths := ["large_context", "detailed_analysis", "file_upload"]
      limitations := ["cost", "availability"]
      best_for := ["complete_llm", "detailed_extraction", "large_documents"]
      cost_tier := "premium" })]

/-- ResumeProcessingService.get_available_providers: a dict with exactly the
keys openai and groq; openai is available iff the API key is set, groq iff
both the API key is set and the client initialized. -/
def getAvailableProviders (openaiKey groqKey groqClient : Bool) : List (String × Bool) :=
  [("openai", openaiKey), ("groq", groqKey && groqClient)]

/-- ProcessingSelectionService._select_best_provider: keep the preferred
providers that appear in the availability map with a true flag and return the
first; otherwise scan the availability map in order and return the first
available key that names a valid provider; otherwise fail. The processing
mode parameter is accepted but unused, as in the code. -/
def selectBestProvider (preferred : List LLMProvider) (avail : List (String × Bool))
    (mode : ProcessingMode) : Except String LLMProvider :=
  match preferred.filter (fun p => (alookup (providerValue p) avail).getD false) with
  | p :: _ => .ok p
  | [] =>
    match avail.filterMap (fun kv => if kv.2 then providerFromString kv.1 else none) with
    | p :: _ => .ok p
    | [] => .error "No LLM providers are currently available"

/-- ProcessingSelectionService._apply_cost_optimization: keep a free-tier
provider; otherwise scan PROVIDER_CONFIGS in order for an available free-tier
provider that suits the mode (HYBRID accepts any; otherwise the provider must
list text_processing among its strengths) and switch to it, recording the
switch; otherwise keep the current provider. A current provider without a
config entry raises a KeyError in the code, modelled as an error value. -/
def applyCostOptimization (current : LLMProvider) (avail : List (String × Bool))
    (mode : ProcessingMode) : Except String (LLMProvider × String) :=
  match alookup current providerConfigs with
  | none => .error "KeyError"
  | some cfg =>
    if cfg.cost_tier = "free" then
      .ok (current, "Already using cost-effective provider")
    else
      match providerConfigs.find? (fun pc =>
          (alookup (providerValue pc.1) avail).getD false &&
          pc.2.cost_tier = "free" &&
          (mode = ProcessingMode.hybrid || pc.2.strengths.contains "text_processing")) with
      | some pc => .ok (pc.1, "Cost optimization: switched to " ++ pc.2.name)
      | none => .ok (current, "No cost-effective alternatives available")

/-- Step 1 of ProcessingSelectionService.select_processing_strategy: mode,
preference list and reasoning. Environment reads become parameters:
hasExplicitConfig is whether DEFAULT_PROCESSING_MODE is set in the
environment, and defaultMode and providerPriority are the resolved defaults;
an explicit configuration bypasses rule evaluation entirely. -/
def strategyStep1 (fileName : String) (fileSizeBytes : ℕ) (hasExplicitConfig : Bool)
    (defaultMode : ProcessingMode) (providerPriority : List LLMProvider) :
    ProcessingMode × List LLMProvider × String :=
  if hasExplicitConfig then
    (defaultMode, providerPriority,
      "Explicit configuration: " ++ modeValue defaultMode ++ " mode (rules bypassed)")
  else
    match evaluateFileRules fileName fileSizeBytes with
    | some rule => (rule.mode, rule.preferred_providers, "Rule-based: " ++ rule.description)
    | none => (defaultMode, providerPriority, "Default configuration applied")

/-- Steps 2 and 3 of select_processing_strategy: pick the best available
provider from the effective preference list, then apply cost optimization if
it is enabled, appending the cost reasoning to the trace. -/
def selectProcessingStrategy (fileName : String) (fileSizeBytes : ℕ)
    (hasExplicitConfig : Bool) (defaultMode : ProcessingMode)
    (providerPriority : List LLMProvider) (costOpt : Bool)
    (avail : List (String × Bool)) :
    Except String (ProcessingMode × LLMProvider × String) :=
  let step1 := strategyStep1 fileName fileSizeBytes hasExplicitConfig defaultMode providerPriority
  match selectBestProvider step1.2.1 avail step1.1 with
  | .error e => .error e
  | .ok p0 =>
    if costOpt then
      match applyCostOptimization p0 avail step1.1 with
      | .error e => .error e
      | .ok pr => .ok (step1.1, pr.1, step1.2.2 ++ " | " ++ pr.2)
    else
      .ok (step1.1, p0, step1.2.2)

/-! ## app/services/resume_processing.py: data model and validate_data -/

/-- The personal_info sub-dict as validate_data reads it; an empty string
models a missing or falsy entry. -/
structure PersonalInfo where
  name : String := ""
  email : String := ""
  phone : String := ""
  address : String := ""

deriving DecidableEq

/-- State of the personal_info key of an extraction record: absent or falsy
(both produce a missing field and a section-empty error), or present as a
truthy dict with name and email entries. -/
inductive PIField where
  | missingOrFalsy
  | present (p : PersonalInfo)

deriving DecidableEq

/-- One experience entry: either not a dict, or a dict whose company and
position entries are read (empty string models missing or falsy). -/
inductive ExpEntry where
  | malformed
  | entry (company position : String)

deriving DecidableEq

/-- One education entry, analogous to ExpEntry. -/
inductive EduEntry where
  | malformed
  | entry (institution degree : String)

deriving DecidableEq

/-- The skills sub-dict: the six category lists the validator recognizes.
A missing or non-list category behaves as an empty list for the content
check, which only counts nonempty list values. -/
structure SkillsDict where
  technical_skills : List String := []
  programming_languages : List String := []
  tools : List String := []
  frameworks : List String := []
  databases : List String := []
  soft_skills : List String := []

deriving DecidableEq

/-- State of the skills key: absent; present but falsy and not a dict;
present, truthy and not a dict; or present as a dict whose truthiness (the
dict being nonempty) is recorded alongside the recognized categories. -/
inductive SkillsField where
  | absent
  | falsyNonDict
  | nonDict
  | dict (truthy : Bool) (s : SkillsDict)

deriving DecidableEq

/-- State of the experience key: absent; present, truthy but not a nonempty
list (an error); or present as a list of entries (the empty list also models
a falsy non-list value, which the code treats identically: a missing field
plus a section-empty error). -/
inductive ExpField where
  | absent
  | truthyNonList
  | entries (l : List ExpEntry)

deriving DecidableEq

/-- State of the education key, analogous to ExpField. -/
inductive EduField where
  | absent
  | truthyNonList
  | entries (l : List EduEntry)

deriving DecidableEq

/-- An extraction-result dict as the pipeline and validator see it: the
special keys (error, raw_response, extraction_confidence, processing_method,
extraction_method, used_provider) plus the resume sections. A none in a
special key models an absent key. -/
structure ExtractDict where
  error : Option String := none
  raw_response : Option String := none
  extraction_confidence : Option ℚ := none
  processing_method : Option String := none
  extraction_method : Option String := none
  used_provider : Option String := none
  personal_info : PIField := .missingOrFalsy
  skills : SkillsField := .absent
  experience : ExpField := .absent
  education : EduField := .absent
  projects : List String := []

deriving DecidableEq

/-- A validation report dict; a none field models a key the returned dict
does not carry (the error short-circuit returns only is_valid and errors,
the normal path returns the other five keys and no errors key). -/
structure ValidationReport where
  is_valid : Bool
  errors : Option (List String) := none
  missing_fields : Option (List String) := none
  validation_errors : Option (List String) := none
  warnings : Option (List String) := none
  confidence_score : Option ℚ := none
  quality_assessment : Option String := none

deriving DecidableEq

/-- Missing-field test for personal_info: key absent or value falsy. -/
def piMissing : PIField → Bool
  | .missingOrFalsy => true
  | .present _ => false

/-- Missing-field test for skills. -/
def skillsMissing : SkillsField → Bool
  | .absent => true
  | .falsyNonDict => true
  | .nonDict => false
  | .dict truthy _ => !truthy

/-- Missing-field test for experience. -/
def expMissing : ExpField → Bool
  | .absent => true
  | .truthyNonList => false
  | .entries l => l.isEmpty

/-- Missing-field test for education. -/
def eduMissing : EduField → Bool
  | .absent => true
  | .truthyNonList => false
  | .entries l => l.isEmpty

/-- Per-entry check of one experience item at (zero-based) index i:
an error when the item is not a dict or lacks both company and position,
a warning when exactly one of the two is missing. -/
def expEntryCheck (i : ℕ) : ExpEntry → List String × List String
  | .malformed => ([s!"Experience entry {i + 1} is not properly formatted"], [])
  | .entry c p =>
    if c = "" ∧ p = "" then ([s!"Missing both company and position in experience {i + 1}"], [])
    else if c = "" then ([], [s!"Missing company in experience {i + 1}"])
    else if p = "" then ([], [s!"Missing position in experience {i + 1}"])
    else ([], [])

/-- Per-entry check of one education item at (zero-based) index i. -/
def eduEntryCheck (i : ℕ) : EduEntry → List String × List String
  | .malformed => ([s!"Education entry {i + 1} is not properly formatted"], [])
  | .entry inst d =>
    if inst = "" ∧ d = "" then
      ([s!"Missing both institution and degree in education {i + 1}"], [])
    else if inst = "" then ([], [s!"Missing institution in education {i + 1}"])
    else if d = "" then ([], [s!"Missing degree in education {i + 1}"])
    else ([], [])

/-- Errors and warnings accumulated over the experience entries, in
iteration order. -/
def expMsgs (l : List ExpEntry) : List String × List String :=
  l.enum.foldl (fun acc ie =>
    let r := expEntryCheck ie.1 ie.2
    (acc.1 ++ r.1, acc.2 ++ r.2)) ([], [])

/-- Errors and warnings accumulated over the education entries. -/
def eduMsgs (l : List EduEntry) : List String × List String :=
  l.enum.foldl (fun acc ie =>
    let r := eduEntryCheck ie.1 ie.2
    (acc.1 ++ r.1, acc.2 ++ r.2)) ([], [])

/-- Whether at least one recognized skills category is a nonempty list. -/
def hasSkills (s : SkillsDict) : Bool :=
  !s.technical_skills.isEmpty || !s.programming_languages.isEmpty || !s.tools.isEmpty ||
  !s.frameworks.isEmpty || !s.databases.isEmpty || !s.soft_skills.isEmpty

/-- The completeness score of validate_data: 100, minus 15 per missing field,
10 per error and 5 per warning, divided by 100 (mkRat is the exact division)
and clamped into the unit interval by the max and min of the code. -/
def confidenceFormula (m e w : ℕ) : ℚ :=
  max 0 (min 1 (mkRat (100 - 15 * (m : ℤ) - 10 * (e : ℤ) - 5 * (w : ℤ)) 100))

/-- ResumeProcessingService.validate_data. A record carrying an error key
short-circuits to an invalid report listing exactly that error; otherwise the
required fields, the personal_info block, the experience, skills and
education blocks are checked in the order of the code, the completeness
score is computed, and the final confidence is the maximum of that score and
the provider-reported extraction_confidence (absent means 0). -/
def validateData (d : ExtractDict) : ValidationReport :=
  match d.error with
  | some e => { is_valid := false, errors := some [e] }
  | none =>
    let missing : List String :=
      (if piMissing d.personal_info then ["personal_info"] else []) ++
      (if skillsMissing d.skills then ["skills"] else []) ++
      (if expMissing d.experience then ["experience"] else []) ++
      (if eduMissing d.education then ["education"] else [])
    let personalErrors : List String :=
      match d.personal_info with
      | .present p =>
        (if p.name = "" then ["Missing name in personal_info"] else []) ++
        (if p.email = "" then ["Missing email in personal_info"] else [])
      | .missingOrFalsy => ["personal_info section is empty or missing"]
    let expPair : List String × List String :=
      match d.experience with
      | .absent => ([], [])
      | .truthyNonList => (["Experience section is empty or not a list"], [])
      | .entries [] => (["Experience section is empty or not a list"], [])
      | .entries l => expMsgs l
    let skillsPair : List String × List String :=
      match d.skills with
      | .absent => ([], [])
      | .falsyNonDict => (["Skills section is not properly formatted (should be an object)"], [])
      | .nonDict => (["Skills section is not properly formatted (should be an object)"], [])
      | .dict _ s =>
        if hasSkills s then ([], [])
        else ([], ["Skills section exists but appears to be empty or poorly structured"])
    let eduPair : List String × List String :=
      match d.education with
      | .absent => ([], [])
      | .truthyNonList => (["Education section is empty or not a list"], [])
      | .entries [] => (["Education section is empty or not a list"], [])
      | .entries l => eduMsgs l
    let validationErrors := personalErrors ++ expPair.1 ++ skillsPair.1 ++ eduPair.1
    let warnings := expPair.2 ++ skillsPair.2 ++ eduPair.2
    let confidenceScore :=
      confidenceFormula missing.length validationErrors.length warnings.length
    let providedConfidence := d.extraction_confidence.getD 0
    let finalConfidence := max confidenceScore providedConfidence
    { is_valid := missing.isEmpty && validationErrors.isEmpty
      missing_fields := some missing
      validation_errors := some validationErrors
      warnings := some warnings
      confidence_score := some finalConfidence
      quality_assessment := some
        (if mkRat 8 10 < finalConfidence then "high"
         else if mkRat 6 10 < finalConfidence then "medium"
         else "low") }

/-- A fully populated record with provider confidence one half, used to
witness C5. -/
def c5data : ExtractDict :=
  { error := none
    extraction_confidence := some (mkRat 1 2)
    personal_info := .present { name := "Ada", email := "ada@example.com" }
    skills := .dict true { technical_skills := ["python"] }
    experience := .entries [.entry "Acme" "Dev"]
    education := .entries [.entry "MIT" "BS"] }

/-- A fully populated record whose provider-reported confidence is 2, used
to refute C4 as stated. -/
def c4data : ExtractDict :=
  { error := none
    extraction_confidence := some 2
    personal_info := .present { name := "Ada", email := "ada@example.com" }
    skills := .dict true { technical_skills := ["python"] }
    experience := .entries [.entry "Acme" "Dev"]
    education := .entries [.entry "MIT" "BS"] }

/-- A sparse record with provider confidence one half, used to witness the
amended C4 on a report whose raw score is at its floor. -/
def c4wdata : ExtractDict :=
  { error := none
    extraction_confidence := some (mkRat 1 2)
    personal_info := .missingOrFalsy
    skills := .falsyNonDict
    experience := .entries []
    education := .truthyNonList }

/-! ## app/services/resume_processing.py: extraction pipeline -/

/-- Outcome of one network call to an LLM backend: the call raises, or it
returns a payload together with the result of JSON-decoding it (for groq,
decoding of the brace-delimited slice of the payload); none models a decode
failure. -/
inductive CallOutcome where
  | raised (msg : String)
  | returned (raw : String) (parsed : Option ExtractDict)

deriving DecidableEq

/-- Environment of one extraction request: whether the groq client was
initialized, and the outcome each provider call would produce on this
request. -/
structure ProviderEnv where
  groqClient : Bool
  openaiFile : CallOutcome
  openaiText : CallOutcome
  groqText : CallOutcome

deriving DecidableEq

/-- Oracle for the regular-expression searches and the set ordering used by
the heuristic fallback parser: emailMatch, phoneMatch and locationMatch model
the respective re.search calls on the whole text, and setList models the
list(set(..)) conversion applied to each found-skills list. -/
structure RegexOracle where
  emailMatch : String → Option String
  phoneMatch : String → Option String
  locationMatch : String → Option String
  setList : List String → List String

/-- The file_upload_support dict of the service. -/
def fileUploadSupport : List (String × Bool) :=
  [("openai", true), ("groq", false), ("anthropic", true)]

/-- ResumeProcessingService._extract_with_openai_file. Every failure path is
caught inside the function and returned as an error dict, so this function
never raises: an unparsable payload yields the parse-failure error marker
with the raw payload, a raised call yields the processing-error marker, and
a parsed payload is tagged with confidence 0.95 and the direct-file method. -/
def extractWithOpenaiFile (env : ProviderEnv) : ExtractDict :=
  match env.openaiFile with
  | .raised msg =>
    { error := some ("OpenAI file processing error: " ++ msg) }
  | .returned raw none =>
    { error := some "Failed to parse OpenAI file response", raw_response := some raw }
  | .returned _ (some d) =>
    { d with extraction_confidence := some (mkRat 95 100),
             processing_method := some "direct_file_upload" }

/-- ResumeProcessingService._extract_with_openai_text. The API call itself is
not wrapped, so a raised call propagates; only JSON decoding is guarded,
returning the parse-failure marker; a parsed payload is tagged with
confidence 0.9. -/
def extractWithOpenaiText (env : ProviderEnv) : Except String ExtractDict :=
  match env.openaiText with
  | .raised msg => .error msg
  | .returned raw none =>
    .ok { error := some "Failed to parse LLM response", raw_response := some raw }
  | .returned _ (some d) =>
    .ok { d with extraction_confidence := some (mkRat 9 10) }

/-- ResumeProcessingService._extract_with_groq_text. A missing client raises;
the guarded body converts both a raised call and an undecodable payload into
error dicts; a parsed payload is tagged with confidence 0.85. -/
def extractWithGroqText (env : ProviderEnv) : Except String ExtractDict :=
  if !env.groqClient then
    .error "Groq client not initialized. Check GROQ_API_KEY."
  else
    match env.groqText with
    | .raised msg => .ok { error := some ("Groq API error: " ++ msg) }
    | .returned raw none =>
      .ok { error := some "Failed to parse Groq response", raw_response := some raw }
    | .returned _ (some d) =>
      .ok { d with extraction_confidence := some (mkRat 85 100) }

/-- ResumeProcessingService._extract_with_provider. hasFileBytes models the
truthiness of file_bytes (present and nonempty). With bytes present the
openai branch always takes the file path, whose failures come back as error
dicts, so its text fallback clause is unreachable; without bytes it uses the
text path when text is truthy and raises otherwise. The groq branch requires
truthy text. An unknown provider raises. The ok none value models the
implicit None return of the fall-through path. -/
def extractWithProvider (env : ProviderEnv) (hasFileBytes : Bool) (text : Option String)
    (provider : String) : Except String (Option ExtractDict) :=
  if provider = "openai" then
    if hasFileBytes && (alookup "openai" fileUploadSupport).getD false then
      .ok (some (extractWithOpenaiFile env))
    else if pyTruthyStr text then
      (extractWithOpenaiText env).map some
    else
      .error "No file or text provided for OpenAI processing"
  else if provider = "groq" then
    if pyTruthyStr text then
      (extractWithGroqText env).map some
    else
      .error "Groq requires text input (no file upload support yet)"
  else
    .error ("Unsupported provider: " ++ provider)

/-- Tagging of a successful result in extract_structured_data: the producing
provider and the processing method. -/
def tagResult (d : ExtractDict) (p : String) (hasFileBytes : Bool) : ExtractDict :=
  { d with used_provider := some p,
           processing_method := some
             (if hasFileBytes && (alookup p fileUploadSupport).getD false then "direct_file"
              else "text_extraction") }

/-! ### The heuristic fallback parser (_fallback_text_parsing) -/

/-- str.rstrip over char lists: remove the trailing whitespace run. -/
def stripEnd : List Char → List Char
  | [] => []
  | c :: rest =>
    match stripEnd rest with
    | [] => if isPySpace c then [] else [c]
    | r => c :: r

/-- str.strip over char lists. -/
def pyStrip (cs : List Char) : List Char := stripEnd (cs.dropWhile isPySpace)

/-- str.split over the newline separator, as a list of char lists; the empty
string yields one empty part, as in Python. -/
def splitNl : List Char → List (List Char)
  | [] => [[]]
  | c :: rest =>
    if c = '\n' then [] :: splitNl rest
    else
      match splitNl rest with
      | l :: ls => (c :: l) :: ls
      | [] => [[c]]

/-- Number of whitespace-separated words, modelling len(line.split()). -/
def wordCountAux : Bool → List Char → ℕ
  | _, [] => 0
  | inWord, c :: rest =>
    if isPySpace c then wordCountAux false rest
    else (if inWord then 0 else 1) + wordCountAux true rest

/-- Word count of a char list. -/
def wordCount (l : List Char) : ℕ := wordCountAux false l

/-- str.title, ASCII fragment: uppercase an alphabetic character following a
non-alphabetic one, lowercase the rest. -/
def pyTitleAux : Bool → List Char → List Char
  | _, [] => []
  | prevAlpha, c :: rest =>
    (if c.isAlpha then (if prevAlpha then c.toLower else c.toUpper) else c) ::
      pyTitleAux c.isAlpha rest

/-- str.title of a string. -/
def pyTitle (s : String) : String := ⟨pyTitleAux false s.data⟩

/-- Keywords that disqualify a line from being taken as the name. -/
def nameKeywords : List String := ["analyst", "engineer", "developer", "profile", "email"]

/-- The name-line heuristic of the fallback parser, applied to a stripped
line: nonempty, at most four words, none of the characters at-sign, plus or
parentheses, and no disqualifying keyword in its lowercase form. -/
def isNameLine (stripped : List Char) : Bool :=
  !stripped.isEmpty && decide (wordCount stripped ≤ 4) &&
  !(stripped.any (fun c => c = '@' || c = '+' || c = '(' || c = ')')) &&
  !(nameKeywords.any (fun kw => containsSub kw.data (stripped.map Char.toLower)))

/-- Name extraction: the first of the first five stripped lines that passes
the name heuristic. -/
def findName (lines : List (List Char)) : Option String :=
  (((lines.take 5).map pyStrip).find? isNameLine).map (fun l => (⟨l⟩ : String))

/-- Programming-language keywords of the fallback skill matcher. -/
def programmingLanguageKeywords : List String :=
  ["python", "java", "javascript", "c++", "sql", "r", "scala", "go", "ruby", "php"]

/-- Tool keywords of the fallback skill matcher. -/
def toolKeywords : List String :=
  ["excel", "tableau", "power bi", "git", "docker", "kubernetes", "jenkins", "jira",
   "confluence"]

/-- Database keywords of the fallback skill matcher. -/
def databaseKeywords : List String :=
  ["mysql", "postgresql", "mongodb", "redis", "oracle", "sql server", "hive"]

/-- Technical-skill keywords of the fallback skill matcher. -/
def technicalSkillKeywords : List String :=
  ["data analysis", "machine learning", "data visualization", "etl", "api", "rest",
   "microservices"]

/-- One category of the fallback skill matcher: title-case every keyword
found as a substring of the lowercased text, then apply the set conversion. -/
def skillCategoryFound (ro : RegexOracle) (textLower : List Char) (kws : List String) :
    List String :=
  ro.setList ((kws.filter (fun k => containsSub k.data textLower)).map pyTitle)

/-- Company-line indicators of the fallback experience extractor. -/
def companyIndicators : List String :=
  [".ai", ".com", "inc", "ltd", "corp", "technologies", "systems"]

/-- Position-line indicators of the fallback experience extractor. -/
def positionTitles : List String := ["analyst", "engineer", "developer", "intern", "manager"]

/-- Education keywords of the fallback parser. -/
def eduKeywords : List String :=
  ["education", "bachelor", "master", "degree", "university", "college"]

/-- The fallback experience builder: company lines and position lines (the
latter only among lines that are not company lines), padded with the
placeholder company and position, producing at least one entry. -/
def buildExperience (lines : List (List Char)) : List ExpEntry :=
  let companies := (lines.filter (fun l =>
    companyIndicators.any (fun i => containsSub i.data (l.map Char.toLower)))).map
      (fun l => (⟨pyStrip l⟩ : String))
  let positions := (lines.filter (fun l =>
    !(companyIndicators.any (fun i => containsSub i.data (l.map Char.toLower))) &&
    positionTitles.any (fun t2 => containsSub t2.data (l.map Char.toLower)))).map
      (fun l => (⟨pyStrip l⟩ : String))
  (List.range (max (max companies.length positions.length) 1)).map (fun i =>
    .entry (companies.getD i "Company Name") (positions.getD i "Position"))

/-- ResumeProcessingService._fallback_text_parsing: regex and keyword based
extraction with the fixed confidence 0.75, the fallback_regex method and the
fallback_parser provider tag; personal_info is a dict that is truthy exactly
when some extraction succeeded, skills is always a (truthy) dict of lists,
and experience and education are always lists, possibly empty. -/
def fallbackTextParsing (ro : RegexOracle) (text : String) : ExtractDict :=
  let email := ro.emailMatch text
  let phone := ro.phoneMatch text
  let lines := splitNl text.data
  let nameOpt := findName lines
  let addr := ro.locationMatch text
  let textLower := text.data.map Char.toLower
  { error := none
    raw_response := none
    extraction_confidence := some (mkRat 3 4)
    processing_method := none
    extraction_method := some "fallback_regex"
    used_provider := some "fallback_parser"
    personal_info :=
      if email.isSome || phone.isSome || nameOpt.isSome || addr.isSome then
        .present { name := nameOpt.getD "", email := email.getD "",
                   phone := phone.getD "", address := addr.getD "" }
      else .missingOrFalsy
    skills := .dict true
      { technical_skills := skillCategoryFound ro textLower technicalSkillKeywords
        programming_languages := skillCategoryFound ro textLower programmingLanguageKeywords
        tools := skillCategoryFound ro textLower toolKeywords
        frameworks := []
        databases := skillCategoryFound ro textLower databaseKeywords
        soft_skills := [] }
    experience := .entries
      (if containsSub "experience".data textLower then buildExperience lines else [])
    education := .entries
      (if eduKeywords.any (fun k => containsSub k.data textLower) then
        [.entry "Educational Institution" "Degree"]
       else [])
    projects := [] }

/-- The provider loop of extract_structured_data: try each provider in
order, return the first truthy result without an error key, tagged with its
provider and method; after exhausting the list, fall back to the heuristic
parser when text is truthy and raise otherwise. -/
def extractLoop (ro : RegexOracle) (env : ProviderEnv) (hasFileBytes : Bool)
    (text : Option String) : List String → Except String (Option ExtractDict)
  | [] =>
    if pyTruthyStr text then .ok (some (fallbackTextParsing ro (text.getD "")))
    else .error "All LLM providers failed and no text available for fallback"
  | p :: rest =>
    match extractWithProvider env hasFileBytes text p with
    | .error _ => extractLoop ro env hasFileBytes text rest
    | .ok none => extractLoop ro env hasFileBytes text rest
    | .ok (some d) =>
      if d.error = none then .ok (some (tagResult d p hasFileBytes))
      else extractLoop ro env hasFileBytes text rest

/-- ResumeProcessingService.extract_structured_data: a truthy forced provider
other than auto goes straight to that provider with no fallback; otherwise
the provider loop runs over the fallback order. -/
def extractStructuredData (ro : RegexOracle) (env : ProviderEnv)
    (providerFallback : List String) (hasFileBytes : Bool) (text : Option String)
    (provider : Option String) : Except String (Option ExtractDict) :=
  match provider with
  | some p =>
    if !(p = "") && !(p = "auto") then extractWithProvider env hasFileBytes text p
    else extractLoop ro env hasFileBytes text providerFallback
  | none => extractLoop ro env hasFileBytes text providerFallback

/-- Whether the attempt of one provider in the loop fails to produce a
usable result: it raises, returns None, or returns a dict with an error key. -/
def attemptFails (env : ProviderEnv) (hasFileBytes : Bool) (text : Option String)
    (p : String) : Bool :=
  match extractWithProvider env hasFileBytes text p with
  | .error _ => true
  | .ok none => true
  | .ok (some d) => d.error.isSome

/-- Structural validity of a record: no error marker, skills a truthy dict,
experience and education lists. -/
def structurallyValidRecord (d : ExtractDict) : Bool :=
  d.error.isNone &&
  (match d.skills with | .dict true _ => true | _ => false) &&
  (match d.experience with | .entries _ => true | _ => false) &&
  (match d.education with | .entries _ => true | _ => false)

/-- The trivial regex oracle used in concrete scenarios. -/
def ro0 : RegexOracle :=
  { emailMatch := fun _ => none
    phoneMatch := fun _ => none
    locationMatch := fun _ => none
    setList := fun l => l }

/-- The groq payload of the C1 scenario. -/
def c1groqParsed : ExtractDict := { personal_info := .present { name := "G" } }

/-- The C1 scenario environment: the openai file call returns an unparsable
payload, the openai text call would succeed, and the groq call succeeds. -/
def c1env : ProviderEnv :=
  { groqClient := true
    openaiFile := .returned "not json" none
    openaiText := .returned "good" (some { personal_info := .present { name := "O" } })
    groqText := .returned "ok" (some c1groqParsed) }

/-- The result the pipeline actually returns in the C1 scenario: the groq
payload, tagged with the groq provider and the text method. -/
def c1expected : ExtractDict :=
  { c1groqParsed with extraction_confidence := some (mkRat 85 100),
                      used_provider := some "groq",
                      processing_method := some "text_extraction" }

/-- The C8 witness environment: unparsable openai file payload, raising
openai text call, missing groq client. -/
def c8env : ProviderEnv :=
  { groqClient := false
    openaiFile := .returned "garbage" none
    openaiText := .raised "APIError"
    groqText := .raised "unused" }

/-! ## app/services/file_extraction.py: text normalization -/

/-- The whitespace-collapsing substitution of _clean_text: every maximal
whitespace run becomes a single space. -/
def collapseWsAux : Bool → List Char → List Char
  | _, [] => []
  | inRun, c :: rest =>
    if isPySpace c then
      if inRun then collapseWsAux true rest else ' ' :: collapseWsAux true rest
    else c :: collapseWsAux false rest

/-- re.sub of one or more whitespace characters by a single space. -/
def collapseWs (cs : List Char) : List Char := collapseWsAux false cs

/-- Python word character (the re word class), ASCII fragment. -/
def isWordChar (c : Char) : Bool := c.isAlphanum || c = '_'

/-- The broken-word repair of _clean_text: a word character, a hyphen, one or
more whitespace characters and a word character are replaced by the two word
characters, scanning left to right without rescanning replacements; the fuel
equals the input length, which suffices since every step consumes at least
one character. -/
def hyphenFixAux : ℕ → List Char → List Char
  | 0, cs => cs
  | _ + 1, [] => []
  | fuel + 1, c :: rest =>
    if isWordChar c then
      match rest with
      | '-' :: rest2 =>
        if (rest2.takeWhile isPySpace).isEmpty then c :: hyphenFixAux fuel rest
        else
          match rest2.dropWhile isPySpace with
          | d :: rest4 =>
            if isWordChar d then c :: d :: hyphenFixAux fuel rest4
            else c :: hyphenFixAux fuel rest
          | [] => c :: hyphenFixAux fuel rest
      | _ => c :: hyphenFixAux fuel rest
    else c :: hyphenFixAux fuel rest

/-- The broken-word repair over a char list. -/
def hyphenFix (cs : List Char) : List Char := hyphenFixAux cs.length cs

/-- The section headings recognized by _clean_text, in alternation order. -/
def sectionWords : List String :=
  ["PROFILE", "EXPERIENCE", "EDUCATION", "SKILLS", "PROJECTS", "ACHIEVEMENTS", "CONTACT"]

/-- Case-insensitive prefix test (ASCII lowering), used for the IGNORECASE
heading match. -/
def ciStarts : List Char → List Char → Bool
  | [], _ => true
  | _ :: _, [] => false
  | w :: ws2, c :: cs2 => w.toLower = c.toLower && ciStarts ws2 cs2

/-- First heading of the alternation matching case-insensitively at the head
of the text; returns the matched original characters and the remainder. -/
def firstSectionMatch (cs : List Char) : Option (List Char × List Char) :=
  match sectionWords.find? (fun w => ciStarts w.data cs) with
  | some w => some (cs.take w.data.length, cs.drop w.data.length)
  | none => none

/-- One attempted match of the heading pattern at the current position:
optional whitespace, a heading, optional whitespace; returns the matched
heading in its original casing and the remainder after the match. -/
def trySectionAt (cs : List Char) : Option (List Char × List Char) :=
  match firstSectionMatch (cs.dropWhile isPySpace) with
  | some (orig, rest1) => some (orig, rest1.dropWhile isPySpace)
  | none => none

/-- The heading substitution of _clean_text: each match of optional
whitespace, heading, optional whitespace is replaced by two newlines, the
heading (group one, original casing) and a newline, scanning left to right. -/
def sectionPassAux : ℕ → List Char → List Char
  | 0, cs => cs
  | _ + 1, [] => []
  | fuel + 1, c :: rest =>
    match trySectionAt (c :: rest) with
    | some (orig, rest2) => '\n' :: '\n' :: (orig ++ '\n' :: sectionPassAux fuel rest2)
    | none => c :: sectionPassAux fuel rest

/-- The heading substitution over a char list. -/
def sectionPass (cs : List Char) : List Char := sectionPassAux cs.length cs

/-- FileExtractionService._clean_text: empty text stays empty; otherwise
collapse whitespace, repair broken words, insert section breaks, and strip. -/
def cleanText (s : String) : String :=
  if s = "" then "" else ⟨pyStrip (sectionPass (hyphenFix (collapseWs s.data)))⟩

/-- The characters of the leading whitespace run that follow its last
newline. -/
def afterLastNl (l : List Char) : List Char :=
  (l.reverse.takeWhile (fun d => !(d = '\n'))).reverse

/-- The triple-newline substitution of _post_process_text: a match of the
pattern newline, whitespace, newline, whitespace, newlines is a leading
whitespace run that starts with a newline and contains at least three; the
match extends through the last newline of the run and is replaced by two
newlines. -/
def fixMultiNlAux : ℕ → List Char → List Char
  | 0, cs => cs
  | _ + 1, [] => []
  | fuel + 1, c :: rest =>
    if c = '\n' ∧
        3 ≤ (((c :: rest).takeWhile isPySpace).filter (fun d => d = '\n')).length then
      '\n' :: '\n' :: fixMultiNlAux fuel
        (afterLastNl ((c :: rest).takeWhile isPySpace) ++
          (c :: rest).drop ((c :: rest).takeWhile isPySpace).length)
    else c :: fixMultiNlAux fuel rest

/-- The triple-newline substitution over a char list. -/
def fixMultiNl (cs : List Char) : List Char := fixMultiNlAux cs.length cs

/-- The kept lines of _post_process_text: each line, stripped, provided the
result is truthy and longer than one character. -/
def keptLines (cs : List Char) : List (List Char) :=
  (splitNl cs).filterMap (fun l =>
    let t := pyStrip l
    if 2 ≤ t.length then some t else none)

/-- Joining with single newlines. -/
def joinNl : List (List Char) → List Char
  | [] => []
  | [l] => l
  | l :: l2 :: ls => l ++ '\n' :: joinNl (l2 :: ls)

/-- FileExtractionService._post_process_text: empty text stays empty;
otherwise keep the stripped lines longer than one character, join them with
newlines, collapse triple newlines, and strip. -/
def postProcessText (s : String) : String :=
  if s = "" then "" else ⟨pyStrip (fixMultiNl (joinNl (keptLines s.data)))⟩

/-- The normalization pipeline applied to one page of text: _clean_text
followed by _post_process_text, as in _extract_pdf. -/
def normalizePipeline (s : String) : String := postProcessText (cleanText s)

/-- Whether the text contains a newline followed, after non-newline
whitespace, by another newline: the shape that can make the triple-newline
substitution or the kept-line recombination interact. -/
def startsNl : List Char → Bool
  | '\n' :: _ => true
  | _ => false

/-- Scanner for a newline, optional non-newline whitespace, newline pattern. -/
def hasNlWsNl : List Char → Bool
  | [] => false
  | c :: rest =>
    (c = '\n' && startsNl (rest.dropWhile (fun d => isPySpace d && !(d = '\n')))) ||
      hasNlWsNl rest

/-- Line shape produced by the kept-lines filter: no newline, at least two
characters, invariant under strip, non-whitespace at both ends. -/
def goodLine (l : List Char) : Prop :=
  '\n' ∉ l ∧ 2 ≤ l.length ∧ pyStrip l = l ∧
  (∀ c t, l = c :: t → isPySpace c = false) ∧
  (∀ init d, l = init ++ [d] → isPySpace d = false)

/-! ## Generic first-match lemmas for ordered scans -/

theorem find?_eq_none_iff {α : Type} (p : α → Bool) (l : List α) :
    l.find? p = none ↔ ∀ x ∈ l, p x = false := by
  induction l with
  | nil => simp [List.find?]
  | cons a t ih =>
    by_cases ha : p a = true
    · simp [List.find?, ha]
    · have ha2 : p a = false := by
        cases h : p a
        · rfl
        · exact absurd h ha
      simp [List.find?, ha2, ih]

theorem find?_first_match {α : Type} (p : α → Bool) (l : List α) (d : α) :
    ∀ i, i < l.length → p (l.getD i d) = true →
      (∀ j, j < i → p (l.getD j d) = false) →
      l.find? p = some (l.getD i d) := by
  induction l with
  | nil => intro i hi; simp at hi
  | cons a t ih =>
    intro i hi hp hprev
    cases i with
    | zero =>
      simp only [List.getD_cons_zero] at hp
      simp [List.find?, hp]
    | succ n =>
      have ha : p a = false := by
        have := hprev 0 (Nat.succ_pos n)
        simpa using this
      simp only [List.getD_cons_succ] at hp ⊢
      rw [List.find?, ha]
      exact ih n (by simpa using hi) hp
        (fun j hj => by
          have := hprev (j + 1) (Nat.succ_lt_succ hj)
          simpa using this)

/-! ## Claims C3 and C6: rule evaluation -/

/-- Claim C3: for every file name and size, rule evaluation is a single
ordered scan over the declared rule collection. It returns none exactly when
no rule matches the normalized (lowercased, dot-prefixed) extension and the
size in megabytes, and it returns the rule at position i whenever that rule
matches and no earlier-declared rule does; in particular, whenever two rules
both match, the earlier-declared one is returned. -/
theorem claim_C3_first_match_wins (fileName : String) (fileSizeBytes : ℕ) :
    (evaluateFileRules fileName fileSizeBytes = none ↔
      ∀ rk ∈ processingRules, ruleMatches fileName fileSizeBytes rk.2 = false) ∧
    (∀ i, i < processingRules.length →
      ruleMatches fileName fileSizeBytes (processingRules.getD i dummyRulePair).2 = true →
      (∀ j, j < i →
        ruleMatches fileName fileSizeBytes (processingRules.getD j dummyRulePair).2 = false) →
      evaluateFileRules fileName fileSizeBytes =
        some (processingRules.getD i dummyRulePair).2) := by
  constructor
  · unfold evaluateFileRules
    rw [Option.map_eq_none']
    rw [find?_eq_none_iff]
  · intro i hi hp hprev
    unfold evaluateFileRules
    rw [find?_first_match (fun rk => ruleMatches fileName fileSizeBytes rk.2)
      processingRules dummyRulePair i hi hp hprev]
    rfl

/-- Witness for C3: a small pdf file fails the large_files rule (declared
first) and matches pdf_files (declared second), so pdf_files is returned. -/
theorem claim_C3_witness : evaluateFileRules "a.pdf" 100 = some pdfFilesRule := by
  have h := (claim_C3_first_match_wins "a.pdf" 100).2 1 (by decide) (by decide)
    (fun j hj => by
      have hj0 : j = 0 := Nat.lt_one_iff.mp hj
      subst hj0
      decide)
  exact h

/-- Claim C6: a size exactly equal to a strict threshold never satisfies the
condition, both for the strict greater-than form and the strict less-than
form, and hence a conditions dict carrying such a size condition never
matches a file of exactly the threshold size. -/
theorem claim_C6_strict_boundaries (t : ℚ) :
    sizeCondHolds (.gt t) t = false ∧
    sizeCondHolds (.lt t) t = false ∧
    (∀ (fe : Option (List String)) (cx : Option String) (ext : String),
      matchesConditions (RuleConditions.mk fe (some (.gt t)) cx) ext t = false ∧
      matchesConditions (RuleConditions.mk fe (some (.lt t)) cx) ext t = false) := by
  have hgt : sizeCondHolds (.gt t) t = false := by
    simp [sizeCondHolds]
  have hlt : sizeCondHolds (.lt t) t = false := by
    simp [sizeCondHolds]
  refine ⟨hgt, hlt, ?_⟩
  intro fe cx ext
  constructor
  · simp [matchesConditions, hgt]
  · simp [matchesConditions, hlt]

/-! ## Claims C2 and C9: provider selection and cost optimization -/

/-- Claim C2: whenever cost optimization runs with a premium-tier current
provider and the free-tier provider groq is available, the optimizer switches
to groq (the first free-tier provider in scan order, suitable for every mode
since it lists text_processing among its strengths) and the reasoning records
the switch; and in the concrete scenario with priority [openai (premium),
groq (free)], both available and cost optimization enabled, the final
provider is groq and the reasoning records the cost-driven switch. -/
theorem claim_C2_cost_switch :
    (∀ (current : LLMProvider) (avail : List (String × Bool)) (mode : ProcessingMode),
      (alookup current providerConfigs).map (fun c => c.cost_tier) = some "premium" →
      alookup "groq" avail = some true →
      applyCostOptimization current avail mode =
        .ok (LLMProvider.groq, "Cost optimization: switched to Groq")) ∧
    selectProcessingStrategy "resume.docx" 500000 true ProcessingMode.hybrid
        [LLMProvider.openai, LLMProvider.groq] true (getAvailableProviders true true true) =
      .ok (ProcessingMode.hybrid, LLMProvider.groq,
        "Explicit configuration: hybrid mode (rules bypassed) | Cost optimization: switched to Groq") := by
  constructor
  · intro current avail mode hprem hgroq
    cases current with
    | auto => simp [alookup, providerConfigs] at hprem
    | groq => simp [alookup, providerConfigs] at hprem
    | openai =>
      simp only [applyCostOptimization, providerConfigs, alookup, providerValue]
      simp only [List.find?]
      simp [hgroq, ProcessingMode.hybrid]
    | anthropic =>
      simp only [applyCostOptimization, providerConfigs, alookup, providerValue]
      simp only [List.find?]
      simp [hgroq, ProcessingMode.hybrid]
  · decide

/-- Witness for C2: openai is premium, groq is available, so the optimizer
switches to groq in complete_llm mode. -/
theorem claim_C2_witness :
    applyCostOptimization LLMProvider.openai [("openai", true), ("groq", true)]
        ProcessingMode.complete_llm =
      .ok (LLMProvider.groq, "Cost optimization: switched to Groq") :=
  claim_C2_cost_switch.1 LLMProvider.openai [("openai", true), ("groq", true)]
    ProcessingMode.complete_llm (by decide) (by decide)

/-- Helper for C9: any provider chosen by _select_best_provider from the map
produced by get_available_providers is openai or groq. -/
theorem selectBestProvider_openai_or_groq (preferred : List LLMProvider)
    (ok gk gc : Bool) (mode : ProcessingMode) (p : LLMProvider)
    (h : selectBestProvider preferred (getAvailableProviders ok gk gc) mode = .ok p) :
    p = LLMProvider.openai ∨ p = LLMProvider.groq := by
  unfold selectBestProvider at h
  cases hf : preferred.filter
      (fun q => (alookup (providerValue q) (getAvailableProviders ok gk gc)).getD false) with
  | cons q t =>
    rw [hf] at h
    have hq : q = p := by
      simpa using h
    subst hq
    have hmem : q ∈ preferred.filter
        (fun r => (alookup (providerValue r) (getAvailableProviders ok gk gc)).getD false) := by
      rw [hf]
      exact List.mem_cons_self q t
    have hcond := (List.mem_filter.mp hmem).2
    cases q with
    | auto => simp [alookup, providerValue, getAvailableProviders] at hcond
    | anthropic => simp [alookup, providerValue, getAvailableProviders] at hcond
    | openai => exact Or.inl rfl
    | groq => exact Or.inr rfl
  | nil =>
    rw [hf] at h
    cases ok <;> cases gk <;> cases gc <;>
      simp [getAvailableProviders, List.filterMap, providerFromString] at h <;>
      simp [h.symm]

/-- Helper for C9: cost optimization either keeps the current provider or
switches to a free-tier entry of PROVIDER_CONFIGS, which can only be groq. -/
theorem applyCostOptimization_keeps_or_groq (current : LLMProvider)
    (avail : List (String × Bool)) (mode : ProcessingMode) (p : LLMProvider) (r : String)
    (h : applyCostOptimization current avail mode = .ok (p, r)) :
    p = current ∨ p = LLMProvider.groq := by
  unfold applyCostOptimization at h
  split at h
  · exact absurd h (by simp)
  · split at h
    · left
      have h2 := h
      simp only [Except.ok.injEq, Prod.mk.injEq] at h2
      exact h2.1.symm
    · split at h
      case _ pc hfind =>
        right
        have hp : pc.1 = p := by
          simp only [Except.ok.injEq, Prod.mk.injEq] at h
          exact h.1
        have hmem := List.mem_of_find?_eq_some hfind
        have hpred := List.find?_some hfind
        have hfree2 : pc.2.cost_tier = "free" := by
          simp only [Bool.and_eq_true, decide_eq_true_eq] at hpred
          exact hpred.1.2
        rw [← hp]
        simp only [providerConfigs, List.mem_cons, List.mem_singleton] at hmem
        rcases hmem with h1 | h2 | h3 | h4
        · rw [h1]
        · rw [h2] at hfree2
          simp at hfree2
        · rw [h3] at hfree2
          simp at hfree2
        · simp at h4
      case _ hfind =>
        left
        simp only [Except.ok.injEq, Prod.mk.injEq] at h
        exact h.1.symm

/-- Claim C9: the availability map handed to the selector has exactly the
keys openai and groq, and consequently every successful selection (with or
without cost optimization) yields openai or groq, never anthropic, whatever
the preferred-provider lists or configured priority contain. -/
theorem claim_C9_never_anthropic :
    (∀ ok gk gc, (getAvailableProviders ok gk gc).map Prod.fst = ["openai", "groq"]) ∧
    (∀ (fileName : String) (fileSizeBytes : ℕ) (hasExplicit : Bool)
        (defaultMode : ProcessingMode) (priority : List LLMProvider) (costOpt : Bool)
        (ok gk gc : Bool) (mode : ProcessingMode) (p : LLMProvider) (r : String),
      selectProcessingStrategy fileName fileSizeBytes hasExplicit defaultMode priority costOpt
          (getAvailableProviders ok gk gc) = .ok (mode, p, r) →
      p = LLMProvider.openai ∨ p = LLMProvider.groq) := by
  constructor
  · intro ok gk gc
    rfl
  · intro fileName fileSizeBytes hasExplicit defaultMode priority costOpt ok gk gc mode p r h
    simp only [selectProcessingStrategy] at h
    split at h
    · exact absurd h (by simp)
    case _ p0 hsel =>
      have hp0 := selectBestProvider_openai_or_groq _ ok gk gc _ p0 hsel
      split at h
      · split at h
        · exact absurd h (by simp)
        case _ pr hopt =>
          have hkeep := applyCostOptimization_keeps_or_groq p0
            (getAvailableProviders ok gk gc) _ pr.1 pr.2 (by
              rw [hopt])
          have hpr : pr.1 = p := by
            simp only [Except.ok.injEq, Prod.mk.injEq] at h
            exact h.2.1
          rw [hpr] at hkeep
          rcases hkeep with hk | hk
          · rw [hk]
            exact hp0
          · right
            exact hk
      · have hpp : p0 = p := by
          simp only [Except.ok.injEq, Prod.mk.injEq] at h
          exact h.2.1
        rw [← hpp]
        exact hp0

/-- Witness for C9: with anthropic alone in the priority list and all keys
present, selection falls back to the availability map and returns openai. -/
theorem claim_C9_witness :
    LLMProvider.openai = LLMProvider.openai ∨ LLMProvider.openai = LLMProvider.groq :=
  claim_C9_never_anthropic.2 "r.txt" 10 true ProcessingMode.hybrid [LLMProvider.anthropic]
    false true true true ProcessingMode.hybrid LLMProvider.openai
    "Explicit configuration: hybrid mode (rules bypassed)" (by decide)

/-! ## Claims C4, C5 and C10: validation -/

/-- Claim C10: a record carrying an error key short-circuits validation to a
report that is invalid, lists exactly that error under errors, and carries
none of the other report keys. -/
theorem claim_C10_error_short_circuit (d : ExtractDict) (e : String) (h : d.error = some e) :
    validateData d = ValidationReport.mk false (some [e]) none none none none none := by
  unfold validateData
  rw [h]

/-- Witness for C10 at a concrete record. -/
theorem claim_C10_witness :
    validateData { error := some "boom", personal_info := .present { name := "A" } } =
      ValidationReport.mk false (some ["boom"]) none none none none none :=
  claim_C10_error_short_circuit { error := some "boom", personal_info := .present { name := "A" } }
    "boom" rfl

/-- The completeness score is always clamped into the unit interval. -/
theorem confidenceFormula_bounds (m e w : ℕ) :
    0 ≤ confidenceFormula m e w ∧ confidenceFormula m e w ≤ 1 := by
  unfold confidenceFormula
  constructor
  · exact le_max_left 0 _
  · exact max_le zero_le_one (min_le_left 1 _)

/-- Claim C5: for every record without an error marker, the reported
confidence equals the maximum of the clamped completeness score, computed
from the counts of missing fields, errors and warnings of the report, and
the provider-reported confidence, and is therefore never below the
provider-reported value. -/
theorem claim_C5_confidence_max (d : ExtractDict) (h : d.error = none) :
    ∀ mf ve w c, (validateData d).missing_fields = some mf →
      (validateData d).validation_errors = some ve →
      (validateData d).warnings = some w →
      (validateData d).confidence_score = some c →
      c = max (confidenceFormula mf.length ve.length w.length)
            (d.extraction_confidence.getD 0) ∧
      d.extraction_confidence.getD 0 ≤ c := by
  intro mf ve w c hmf hve hw hc
  unfold validateData at hmf hve hw hc
  rw [h] at hmf hve hw hc
  simp only [Option.some.injEq] at hmf hve hw hc
  subst hmf
  subst hve
  subst hw
  subst hc
  exact ⟨rfl, le_max_right _ _⟩

/-- Witness for C5: on a complete record the score is one and dominates the
provider-reported one half. -/
theorem claim_C5_witness :
    (1 : ℚ) = max (confidenceFormula 0 0 0) (c5data.extraction_confidence.getD 0) ∧
    c5data.extraction_confidence.getD 0 ≤ (1 : ℚ) := by
  have h := claim_C5_confidence_max c5data rfl [] [] [] 1
    (by decide) (by decide) (by decide) (by decide)
  simpa using h

/-- Counterexample to C4 as stated: with a provider-reported confidence of 2
the returned confidence is 2, which lies outside the unit interval, because
the final max with the provider-reported value is not clamped. -/
theorem claim_C4_counterexample :
    (validateData c4data).confidence_score = some (2 : ℚ) ∧ ¬((2 : ℚ) ≤ 1) := by
  constructor
  · decide
  · decide

/-- Claim C4 as amended: for every record without an error marker and any
counts of missing fields, errors and warnings, the reported confidence lies
in the unit interval provided the provider-reported confidence is at most
one; the clamped completeness score alone always lies in the unit interval
(confidenceFormula_bounds), but a provider-reported value above one is
passed through unclamped. -/
theorem claim_C4_amended (d : ExtractDict) (c : ℚ) (h : d.error = none)
    (hprov : d.extraction_confidence.getD 0 ≤ 1)
    (hc : (validateData d).confidence_score = some c) :
    0 ≤ c ∧ c ≤ 1 := by
  unfold validateData at hc
  rw [h] at hc
  simp only [Option.some.injEq] at hc
  subst hc
  constructor
  · exact le_trans (confidenceFormula_bounds _ _ _).1 (le_max_left _ _)
  · exact max_le (confidenceFormula_bounds _ _ _).2 hprov

/-- Witness for the amended C4. -/
theorem claim_C4_witness :
    (0 : ℚ) ≤ mkRat 1 2 ∧ (mkRat 1 2 : ℚ) ≤ 1 :=
  claim_C4_amended c4wdata (mkRat 1 2) rfl (by decide) (by decide)

/-! ## Claims C1 and C8: orchestration -/

/-- With file bytes present, the outcome of the whole automatic pipeline
never depends on what the openai text call would have returned: the openai
attempt takes the file path, whose failures are returned as error dicts
rather than raised, so the text fallback clause of _extract_with_provider is
unreachable. -/
theorem extractLoop_openaiText_irrelevant (ro : RegexOracle) (env : ProviderEnv)
    (o1 o2 : CallOutcome) (text : Option String) :
    ∀ fb : List String,
      extractLoop ro { env with openaiText := o1 } true text fb =
      extractLoop ro { env with openaiText := o2 } true text fb := by
  intro fb
  induction fb with
  | nil => rfl
  | cons p rest ih =>
    have hsame : extractWithProvider { env with openaiText := o1 } true text p =
        extractWithProvider { env with openaiText := o2 } true text p := by
      unfold extractWithProvider
      by_cases hp : p = "openai"
      · simp [hp, extractWithOpenaiFile, alookup, fileUploadSupport]
      · by_cases hg : p = "groq"
        · simp [hp, hg, extractWithGroqText]
        · simp [hp, hg]
    simp only [extractLoop]
    rw [hsame]
    cases hm : extractWithProvider { env with openaiText := o2 } true text p with
    | error e => exact ih
    | ok od =>
      cases od with
      | none => exact ih
      | some d =>
        by_cases hd : d.error = none
        · simp [hd]
        · simp [hd, ih]

/-- Claim C1 evaluated on the code: when file bytes and text are both present
and no provider is forced, the pipeline ignores the openai text path
entirely (first conjunct: the result is invariant under every change of the
openai text outcome, for every environment and fallback order), and in the
concrete scenario where the first provider returns an unparsable file
response while its text path would succeed, the returned result comes from
groq, not from the openai text path. -/
theorem claim_C1_file_failure_skips_text_fallback :
    (∀ (ro : RegexOracle) (env : ProviderEnv) (o1 o2 : CallOutcome) (fb : List String)
        (t : String),
      extractStructuredData ro { env with openaiText := o1 } fb true (some t) none =
      extractStructuredData ro { env with openaiText := o2 } fb true (some t) none) ∧
    extractStructuredData ro0 c1env ["openai", "groq"] true (some "resume text") none =
      .ok (some c1expected) := by
  constructor
  · intro ro env o1 o2 fb t
    exact extractLoop_openaiText_irrelevant ro env o1 o2 (some t) fb
  · decide

/-- The loop returns the heuristic fallback outcome once every provider
attempt in the list fails. -/
theorem extractLoop_all_fail (ro : RegexOracle) (env : ProviderEnv) (hasFileBytes : Bool)
    (text : Option String) :
    ∀ fb : List String, (∀ p ∈ fb, attemptFails env hasFileBytes text p = true) →
      extractLoop ro env hasFileBytes text fb =
        (if pyTruthyStr text then .ok (some (fallbackTextParsing ro (text.getD "")))
         else .error "All LLM providers failed and no text available for fallback") := by
  intro fb
  induction fb with
  | nil => intro _; rfl
  | cons p rest ih =>
    intro hfail
    have hp := hfail p (List.mem_cons_self p rest)
    unfold attemptFails at hp
    simp only [extractLoop]
    cases hm : extractWithProvider env hasFileBytes text p with
    | error e => exact ih (fun q hq => hfail q (List.mem_cons_of_mem p hq))
    | ok od =>
      cases od with
      | none => exact ih (fun q hq => hfail q (List.mem_cons_of_mem p hq))
      | some d =>
        rw [hm] at hp
        simp only [Option.isSome_iff_exists] at hp
        rcases hp with ⟨e, he⟩
        have hne : ¬(d.error = none) := by simp [he]
        dsimp only
        rw [if_neg hne]
        exact ih (fun q hq => hfail q (List.mem_cons_of_mem p hq))

/-- Claim C8: for every request without a forced provider in which every
provider attempt fails, the pipeline returns the heuristic fallback record
when the text is truthy and raises the all-providers-exhausted error when it
is not; and for every text the heuristic record carries the fixed confidence
0.75, the fallback_parser provider tag, and is structurally valid. -/
theorem claim_C8_heuristic_fallback (ro : RegexOracle) (env : ProviderEnv)
    (fb : List String) (hasFileBytes : Bool) (text : Option String)
    (hfail : ∀ p ∈ fb, attemptFails env hasFileBytes text p = true) :
    extractStructuredData ro env fb hasFileBytes text none =
      (if pyTruthyStr text then .ok (some (fallbackTextParsing ro (text.getD "")))
       else .error "All LLM providers failed and no text available for fallback") ∧
    ∀ t : String, (fallbackTextParsing ro t).extraction_confidence = some (mkRat 3 4) ∧
      (fallbackTextParsing ro t).used_provider = some "fallback_parser" ∧
      structurallyValidRecord (fallbackTextParsing ro t) = true := by
  constructor
  · exact extractLoop_all_fail ro env hasFileBytes text fb hfail
  · intro t
    exact ⟨rfl, rfl, rfl⟩

/-- Witness for C8 at a concrete failing environment and nonempty text. -/
theorem claim_C8_witness :
    extractStructuredData ro0 c8env ["openai", "groq"] true (some "experience hive") none =
      .ok (some (fallbackTextParsing ro0 "experience hive")) ∧
    structurallyValidRecord (fallbackTextParsing ro0 "experience hive") = true := by
  have h := claim_C8_heuristic_fallback ro0 c8env ["openai", "groq"] true
    (some "experience hive") (by decide)
  refine ⟨?_, (h.2 "experience hive").2.2⟩
  have h1 := h.1
  simpa [pyTruthyStr] using h1

/-! ## Claim C7: normalization idempotence -/

/-- Counterexample to C7 as stated: the pipeline is not idempotent. On the
input with a hyphen directly before a section heading, the first pass leaves
a line ending in the hyphen; the second pass collapses the inserted line
breaks to spaces, which lets the broken-word repair merge the hyphenated
fragment with the heading, changing the output. -/
theorem claim_C7_counterexample :
    normalizePipeline (normalizePipeline "ab-PROFILE cd") ≠
      normalizePipeline "ab-PROFILE cd" := by
  decide

/-! ### Lemmas towards idempotence of _post_process_text -/

theorem dw_head (l : List Char) (c : Char) (t : List Char)
    (h : l.dropWhile isPySpace = c :: t) : isPySpace c = false := by
  induction l with
  | nil => simp at h
  | cons a r ih =>
    by_cases ha : isPySpace a = true
    · rw [List.dropWhile_cons_of_pos ha] at h
      exact ih h
    · rw [List.dropWhile_cons_of_neg ha] at h
      cases h
      simpa using ha

theorem dw_of_head_false (c : Char) (t : List Char) (h : isPySpace c = false) :
    (c :: t).dropWhile isPySpace = c :: t :=
  List.dropWhile_cons_of_neg (by simp [h])

theorem se_head (c : Char) (rest : List Char) :
    stripEnd (c :: rest) = [] ∨ ∃ t, stripEnd (c :: rest) = c :: t := by
  unfold stripEnd
  cases hr : stripEnd rest with
  | nil =>
    by_cases hc : isPySpace c = true
    · left; simp [hc]
    · right; exact ⟨[], by simp [hc]⟩
  | cons x xs => right; exact ⟨x :: xs, rfl⟩

theorem se_last_not_ws (l : List Char) :
    ∀ init d, stripEnd l = init ++ [d] → isPySpace d = false := by
  induction l with
  | nil => intro init d h; simp [stripEnd] at h
  | cons c rest ih =>
    intro init d h
    unfold stripEnd at h
    cases hr : stripEnd rest with
    | nil =>
      rw [hr] at h
      by_cases hc : isPySpace c = true
      · simp [hc] at h
      · rw [if_neg hc] at h
        cases init with
        | nil =>
          simp at h
          rw [← h]
          simpa using hc
        | cons i0 it => simp at h
    | cons x xs =>
      rw [hr] at h
      cases init with
      | nil => simp at h
      | cons i0 it =>
        simp only [List.cons_append, List.cons.injEq] at h
        exact ih it d (by rw [hr, h.2])

theorem se_subset (l : List Char) : ∀ x ∈ stripEnd l, x ∈ l := by
  induction l with
  | nil => intro x hx; simp [stripEnd] at hx
  | cons c rest ih =>
    intro x hx
    unfold stripEnd at hx
    cases hr : stripEnd rest with
    | nil =>
      rw [hr] at hx
      by_cases hc : isPySpace c = true
      · simp [hc] at hx
      · simp [hc] at hx
        simp [hx]
    | cons y ys =>
      rw [hr] at hx
      rcases List.mem_cons.mp hx with h | h
      · simp [h]
      · right
        exact ih x (by rw [hr]; exact h)

theorem se_of_last (l : List Char)
    (h : ∀ init d, l = init ++ [d] → isPySpace d = false) : stripEnd l = l := by
  induction l with
  | nil => rfl
  | cons c rest ih =>
    cases hrest : rest with
    | nil =>
      have hc := h [] c (by simp [hrest])
      simp [stripEnd, hc]
    | cons x xs =>
      rw [← hrest]
      have hr : stripEnd rest = rest := by
        apply ih
        intro init d hd
        exact h (c :: init) d (by simp [hd])
      unfold stripEnd
      rw [hr, hrest]

theorem se_append (l tail : List Char) (hne : tail ≠ [])
    (hse : stripEnd tail = tail) : stripEnd (l ++ tail) = l ++ tail := by
  induction l with
  | nil => simpa using hse
  | cons c l2 ih =>
    have hne2 : l2 ++ tail ≠ [] := by
      intro hcon
      exact hne (List.append_eq_nil.mp hcon).2
    show stripEnd (c :: (l2 ++ tail)) = c :: (l2 ++ tail)
    unfold stripEnd
    rw [ih]
    cases hx : l2 ++ tail with
    | nil => exact absurd hx hne2
    | cons y ys => rfl

theorem ps_head_not_ws (x : List Char) (c : Char) (t : List Char)
    (h : pyStrip x = c :: t) : isPySpace c = false := by
  unfold pyStrip at h
  cases hd : x.dropWhile isPySpace with
  | nil => rw [hd] at h; simp [stripEnd] at h
  | cons c0 t0 =>
    rw [hd] at h
    rcases se_head c0 t0 with h2 | ⟨t2, h2⟩
    · rw [h2] at h; simp at h
    · rw [h2] at h
      cases h
      exact dw_head x c t0 hd

theorem ps_last_not_ws (x : List Char) :
    ∀ init d, pyStrip x = init ++ [d] → isPySpace d = false := by
  intro init d h
  exact se_last_not_ws (x.dropWhile isPySpace) init d h

theorem ps_subset (x : List Char) : ∀ a ∈ pyStrip x, a ∈ x := by
  intro a ha
  have h1 := se_subset (x.dropWhile isPySpace) a ha
  exact List.dropWhile_subset isPySpace h1

theorem ps_idem (x : List Char) : pyStrip (pyStrip x) = pyStrip x := by
  have hdw : (pyStrip x).dropWhile isPySpace = pyStrip x := by
    cases hy : pyStrip x with
    | nil => simp
    | cons c t => exact dw_of_head_false c t (ps_head_not_ws x c t hy)
  show stripEnd ((pyStrip x).dropWhile isPySpace) = pyStrip x
  rw [hdw]
  exact se_of_last (pyStrip x) (ps_last_not_ws x)

theorem splitNl_ne_nil (cs : List Char) : splitNl cs ≠ [] := by
  induction cs with
  | nil => simp [splitNl]
  | cons c rest ih =>
    unfold splitNl
    by_cases hc : c = '\n'
    · simp [hc]
    · rw [if_neg hc]
      cases hr : splitNl rest with
      | nil => simp
      | cons l ls => simp

theorem splitNl_no_nl (cs : List Char) : ∀ part ∈ splitNl cs, '\n' ∉ part := by
  induction cs with
  | nil =>
    intro part hp
    simp [splitNl] at hp
    simp [hp]
  | cons c rest ih =>
    intro part hp
    unfold splitNl at hp
    by_cases hc : c = '\n'
    · rw [if_pos hc] at hp
      rcases List.mem_cons.mp hp with h | h
      · simp [h]
      · exact ih part h
    · rw [if_neg hc] at hp
      cases hr : splitNl rest with
      | nil => exact absurd hr (splitNl_ne_nil rest)
      | cons l ls =>
        rw [hr] at hp
        rcases List.mem_cons.mp hp with h | h
        · rw [h]
          intro hmem
          rcases List.mem_cons.mp hmem with h2 | h2
          · exact hc h2.symm
          · exact ih l (by rw [hr]; exact List.mem_cons_self l ls) h2
        · exact ih part (by rw [hr]; exact List.mem_cons_of_mem l h)

theorem splitNl_of_no_nl (l : List Char) (h : '\n' ∉ l) : splitNl l = [l] := by
  induction l with
  | nil => rfl
  | cons c rest ih =>
    have hc : ¬(c = '\n') := by
      intro hcon
      exact h (by rw [hcon]; exact List.mem_cons_self _ _)
    have hr : splitNl rest = [rest] := ih (fun hm => h (List.mem_cons_of_mem c hm))
    unfold splitNl
    rw [if_neg hc, hr]

theorem splitNl_append (l : List Char) (hl : '\n' ∉ l) :
    ∀ (cs : List Char) (hd : List Char) (tl : List (List Char)),
      splitNl cs = hd :: tl → splitNl (l ++ cs) = (l ++ hd) :: tl := by
  induction l with
  | nil => intro cs hd tl h; simpa using h
  | cons c l2 ih =>
    intro cs hd tl h
    have hc : ¬(c = '\n') := by
      intro hcon
      exact hl (by rw [hcon]; exact List.mem_cons_self _ _)
    have h2 := ih (fun hm => hl (List.mem_cons_of_mem c hm)) cs hd tl h
    show splitNl (c :: (l2 ++ cs)) = (c :: (l2 ++ hd)) :: tl
    unfold splitNl
    rw [if_neg hc, h2]

theorem splitNl_join (L : List (List Char)) (hne : L ≠ [])
    (hnl : ∀ l ∈ L, '\n' ∉ l) : splitNl (joinNl L) = L := by
  induction L with
  | nil => exact absurd rfl hne
  | cons l rest ih =>
    cases hr : rest with
    | nil =>
      show splitNl (joinNl [l]) = [l]
      exact splitNl_of_no_nl l (hnl l (List.mem_cons_self _ _))
    | cons l2 ls =>
      rw [← hr]
      have hjoin : joinNl (l :: rest) = l ++ '\n' :: joinNl rest := by
        rw [hr]
        rfl
      rw [hjoin]
      have hrest : splitNl (joinNl rest) = rest := by
        apply ih
        · rw [hr]; simp
        · intro a ha
          exact hnl a (List.mem_cons_of_mem l ha)
      have hsplit2 : splitNl ('\n' :: joinNl rest) = [] :: rest := by
        unfold splitNl
        rw [if_pos rfl, hrest]
      have := splitNl_append l (hnl l (List.mem_cons_self _ _)) ('\n' :: joinNl rest)
        [] rest hsplit2
      rw [this]
      simp

theorem hnw_tail (c : Char) (rest : List Char) (h : hasNlWsNl (c :: rest) = false) :
    hasNlWsNl rest = false := by
  unfold hasNlWsNl at h
  exact (Bool.or_eq_false_iff.mp h).2

theorem hnw_cons (c : Char) (rest : List Char) :
    hasNlWsNl (c :: rest) =
      ((decide (c = '\n') &&
        startsNl (rest.dropWhile (fun d => isPySpace d && !(decide (d = '\n'))))) ||
       hasNlWsNl rest) := rfl

theorem hnw_append (l : List Char) (hl : '\n' ∉ l) (tail : List Char) :
    hasNlWsNl (l ++ tail) = hasNlWsNl tail := by
  induction l with
  | nil => rfl
  | cons c l2 ih =>
    have hc : ¬(c = '\n') := by
      intro hcon
      exact hl (by rw [hcon]; exact List.mem_cons_self _ _)
    show hasNlWsNl (c :: (l2 ++ tail)) = hasNlWsNl tail
    rw [hnw_cons, ih (fun hm => hl (List.mem_cons_of_mem c hm))]
    simp [hc]

theorem hnw_nl_cons (j : List Char)
    (hj : ∀ c t, j = c :: t → isPySpace c = false) :
    hasNlWsNl ('\n' :: j) = hasNlWsNl j := by
  rw [hnw_cons]
  cases hjc : j with
  | nil => simp [startsNl]
  | cons c t =>
    have hc := hj c t hjc
    rw [List.dropWhile_cons_of_neg (by simp [hc])]
    have hcn : ¬(c = '\n') := by
      intro hcon
      rw [hcon] at hc
      simp [isPySpace] at hc
    simp [startsNl, hcn, hjc]

theorem kept_good (cs : List Char) : ∀ l ∈ keptLines cs, goodLine l := by
  intro l hl
  unfold keptLines at hl
  rcases List.mem_filterMap.mp hl with ⟨x, hx, hfx⟩
  simp only at hfx
  by_cases hlen : 2 ≤ (pyStrip x).length
  · rw [if_pos hlen] at hfx
    have hxl : pyStrip x = l := by
      simpa using hfx
    refine ⟨?_, ?_, ?_, ?_, ?_⟩
    · intro hmem
      rw [← hxl] at hmem
      exact splitNl_no_nl cs x hx (ps_subset x '\n' hmem)
    · rw [← hxl]; exact hlen
    · rw [← hxl]; exact ps_idem x
    · intro c t hct
      exact ps_head_not_ws x c t (by rw [hxl, hct])
    · intro init d hid
      exact ps_last_not_ws x init d (by rw [hxl, hid])
  · rw [if_neg hlen] at hfx
    simp at hfx

theorem goodLine_ne_nil (l : List Char) (h : goodLine l) : l ≠ [] := by
  intro hcon
  rw [hcon] at h
  rcases h with ⟨_, h2, _⟩
  simp at h2

theorem joinNl_cons2 (l l2 : List Char) (ls : List (List Char)) :
    joinNl (l :: l2 :: ls) = l ++ '\n' :: joinNl (l2 :: ls) := rfl

theorem join_ne_nil (l : List Char) (rest : List (List Char)) (h : l ≠ []) :
    joinNl (l :: rest) ≠ [] := by
  cases rest with
  | nil => simpa [joinNl] using h
  | cons a b =>
    rw [joinNl_cons2]
    simp

theorem join_head_not_ws (L : List (List Char)) (hg : ∀ l ∈ L, goodLine l) :
    ∀ c t, joinNl L = c :: t → isPySpace c = false := by
  cases L with
  | nil => intro c t h; simp [joinNl] at h
  | cons l rest =>
    intro c t h
    have hgl := hg l (List.mem_cons_self _ _)
    cases hx : l with
    | nil => exact absurd hx (goodLine_ne_nil l hgl)
    | cons c0 t0 =>
      have hc0 : c = c0 := by
        cases rest with
        | nil =>
          rw [show joinNl [l] = l from rfl, hx] at h
          exact (List.cons.injEq _ _ _ _ ▸ h).1.symm
        | cons a b =>
          rw [joinNl_cons2, hx] at h
          simp only [List.cons_append, List.cons.injEq] at h
          exact h.1.symm
      rw [hc0]
      exact hgl.2.2.2.1 c0 t0 hx

theorem join_hnw (L : List (List Char)) (hg : ∀ l ∈ L, goodLine l) :
    hasNlWsNl (joinNl L) = false := by
  induction L with
  | nil => rfl
  | cons l rest ih =>
    have hnl : '\n' ∉ l := (hg l (List.mem_cons_self _ _)).1
    have hgrest : ∀ a ∈ rest, goodLine a := fun a ha => hg a (List.mem_cons_of_mem l ha)
    cases hr : rest with
    | nil =>
      have := hnw_append l hnl []
      simpa using this
    | cons l2 ls =>
      rw [← hr, show joinNl (l :: rest) = l ++ '\n' :: joinNl rest from by rw [hr]; rfl]
      rw [hnw_append l hnl]
      rw [hnw_nl_cons (joinNl rest) (fun c t hct => join_head_not_ws rest hgrest c t hct)]
      exact ih hgrest

theorem nl_in_ws_run (rest : List Char) (h : '\n' ∈ rest.takeWhile isPySpace) :
    startsNl (rest.dropWhile (fun d => isPySpace d && !(decide (d = '\n')))) = true := by
  induction rest with
  | nil => simp at h
  | cons a r ih =>
    by_cases ha : isPySpace a = true
    · rw [List.takeWhile_cons_of_pos ha] at h
      by_cases han : a = '\n'
      · rw [List.dropWhile_cons_of_neg (by simp [han])]
        simp [han, startsNl]
      · rw [List.dropWhile_cons_of_pos (by simp [ha, han])]
        rcases List.mem_cons.mp h with h2 | h2
        · exact absurd h2.symm han
        · exact ih h2
    · rw [List.takeWhile_cons_of_neg (by simpa using ha)] at h
      simp at h

theorem fixMultiNlAux_id (fuel : ℕ) :
    ∀ cs, hasNlWsNl cs = false → fixMultiNlAux fuel cs = cs := by
  induction fuel with
  | zero => intro cs h; rfl
  | succ fuel ih =>
    intro cs h
    cases cs with
    | nil => rfl
    | cons c rest =>
      have hcond : ¬(c = '\n' ∧
          3 ≤ (((c :: rest).takeWhile isPySpace).filter (fun d => d = '\n')).length) := by
        rintro ⟨hc, hcount⟩
        subst hc
        rw [List.takeWhile_cons_of_pos (by decide)] at hcount
        rw [List.filter_cons_of_pos (by simp)] at hcount
        rw [List.length_cons] at hcount
        have h2 : ((rest.takeWhile isPySpace).filter (fun d => decide (d = '\n'))) ≠ [] := by
          intro hcon
          rw [hcon] at hcount
          simp at hcount
        rcases List.exists_mem_of_ne_nil _ h2 with ⟨x, hx⟩
        have hx2 := List.mem_filter.mp hx
        have hx3 : x = '\n' := by simpa using hx2.2
        have h3 : '\n' ∈ rest.takeWhile isPySpace := hx3 ▸ hx2.1
        have h4 := nl_in_ws_run rest h3
        rw [hnw_cons] at h
        simp [h4] at h
      unfold fixMultiNlAux
      rw [if_neg hcond]
      rw [ih rest (hnw_tail c rest h)]

theorem fixMultiNl_id (cs : List Char) (h : hasNlWsNl cs = false) : fixMultiNl cs = cs :=
  fixMultiNlAux_id cs.length cs h

theorem join_stripEnd :
    ∀ L : List (List Char), (∀ l ∈ L, goodLine l) → stripEnd (joinNl L) = joinNl L := by
  intro L
  induction L with
  | nil => intro _; rfl
  | cons l rest ih =>
    intro hg
    have hgl := hg l (List.mem_cons_self _ _)
    have hgrest : ∀ a ∈ rest, goodLine a := fun a ha => hg a (List.mem_cons_of_mem l ha)
    cases hr : rest with
    | nil =>
      show stripEnd (joinNl [l]) = joinNl [l]
      exact se_of_last l hgl.2.2.2.2
    | cons l2 ls =>
      rw [← hr, show joinNl (l :: rest) = l ++ '\n' :: joinNl rest from by rw [hr]; rfl]
      have hJne : joinNl rest ≠ [] := by
        rw [hr]
        exact join_ne_nil l2 ls (goodLine_ne_nil l2 (hgrest l2 (by rw [hr]; simp)))
      have hseJ : stripEnd (joinNl rest) = joinNl rest := ih hgrest
      have hse2 : stripEnd ('\n' :: joinNl rest) = '\n' :: joinNl rest := by
        unfold stripEnd
        rw [hseJ]
        cases hj : joinNl rest with
        | nil => exact absurd hj hJne
        | cons y ys => rfl
      exact se_append l ('\n' :: joinNl rest) (by simp) hse2

theorem good_join_strip (L : List (List Char)) (hg : ∀ l ∈ L, goodLine l) :
    pyStrip (joinNl L) = joinNl L := by
  unfold pyStrip
  have hdw : (joinNl L).dropWhile isPySpace = joinNl L := by
    cases hj : joinNl L with
    | nil => simp
    | cons c t => exact dw_of_head_false c t (join_head_not_ws L hg c t hj)
  rw [hdw]
  exact join_stripEnd L hg

theorem filterMap_eq_self {α : Type} (f : α → Option α) :
    ∀ L : List α, (∀ l ∈ L, f l = some l) → L.filterMap f = L := by
  intro L
  induction L with
  | nil => intro _; rfl
  | cons a rest ih =>
    intro h
    rw [List.filterMap_cons, h a (List.mem_cons_self _ _),
      ih (fun l hl => h l (List.mem_cons_of_mem a hl))]

theorem kept_join_kept (cs : List Char) :
    keptLines (joinNl (keptLines cs)) = keptLines cs := by
  cases hK : keptLines cs with
  | nil => rfl
  | cons l0 ls =>
    rw [← hK]
    have hg := kept_good cs
    have hsplit : splitNl (joinNl (keptLines cs)) = keptLines cs :=
      splitNl_join (keptLines cs) (by rw [hK]; simp) (fun l hl => (hg l hl).1)
    show (splitNl (joinNl (keptLines cs))).filterMap _ = keptLines cs
    rw [hsplit]
    apply filterMap_eq_self
    intro l hl
    have hgl := hg l hl
    simp only
    rw [hgl.2.2.1, if_pos hgl.2.1]

theorem postProcess_char (s : String) :
    postProcessText s = ⟨joinNl (keptLines s.data)⟩ := by
  by_cases hs : s = ""
  · subst hs
    rfl
  · unfold postProcessText
    rw [if_neg hs]
    have hg := kept_good s.data
    rw [fixMultiNl_id _ (join_hnw _ hg)]
    rw [good_join_strip _ hg]

/-- Claim C7 as amended: the full pipeline is not idempotent (see the
counterexample), but its final stage is: re-running _post_process_text on
its own output changes nothing, for every input string. -/
theorem claim_C7_amended_post_process_idempotent (s : String) :
    postProcessText (postProcessText s) = postProcessText s := by
  rw [postProcess_char (postProcessText s), postProcess_char s]
  exact congrArg String.mk (congrArg joinNl (kept_join_kept s.data))
